import Mathlib

/-!
Verification of src/src/main.rs of start-app-launcher-rust against its
specification. The file shallowly embeds the App struct, its methods
(new, next, prev, select) and the run_app event loop, and proves the
spec's testable properties about them.
-/

namespace StartApp

/-- A process-spawn configuration, as built by std::process::Command in
App::select: Command::new(program) followed by zero or more .arg(...)
calls. The field newSession records whether any session-detach
configuration (setsid via pre_exec, or process_group) was applied before
spawning; std::process::Command applies none by default and App::select
never configures any, so every builder starts (and stays) at false. -/
structure Command where
  program : String
  args : List String
  newSession : Bool
deriving DecidableEq

/-- Command::new(program): empty argument list, default (non-detached) session. -/
def Command.new (program : String) : Command :=
  ⟨program, [], false⟩

/-- Command::arg: appends one argument. -/
def Command.arg (c : Command) (a : String) : Command :=
  { c with args := c.args ++ [a] }

/-- Handle for a successfully created child process (std::process::Child). -/
structure Child where
  id : Nat
deriving DecidableEq

/-- A per-spec launch failure; it names the program that failed to start. -/
structure LaunchError where
  specName : String
deriving DecidableEq

/-- Command::spawn under an environment oracle that tells which spawn
attempts (numbered in program order within one App::select run) succeed.
The call returns as soon as the child is created or creation has failed;
it never waits for the child. -/
def Command.spawn (oracle : Nat → Bool) (i : Nat) (c : Command) : Except LaunchError Child :=
  if oracle i then .ok ⟨i⟩ else .error ⟨c.program⟩

/-- Result::ok(): converts the spawn result to an Option, dropping the error value. -/
def rustOk : Except LaunchError Child → Option Child :=
  Except.toOption

/-- The App struct: the option list and the index of the selected option. -/
structure App where
  options : List String
  selected : Nat
deriving DecidableEq

/-- App::new: the hard-coded option list, selection starts at index 0. -/
def App.new : App :=
  ⟨["Nothing", "Study", "Docker", "Dev", "Play"], 0⟩

/-- App::next: circular forward navigation, (selected + 1) % options.len(). -/
def App.next (a : App) : App :=
  { a with selected := (a.selected + 1) % a.options.length }

/-- App::prev: circular backward navigation; from 0 it wraps to options.len() - 1. -/
def App.prev (a : App) : App :=
  if a.selected > 0 then { a with selected := a.selected - 1 }
  else { a with selected := a.options.length - 1 }

/-- The match in App::select, as a table from the selected option string to
the ordered list of Commands the corresponding arm spawns. The "Docker"
arm builds sh -c "docker start $(docker ps -aq)" and the wildcard arm
spawns nothing. -/
def appsFor : String → List Command
  | "Nothing" => []
  | "Study" => [Command.new "obsidian", Command.new "brave-browser"]
  | "Docker" =>
      [((Command.new "sh").arg "-c").arg "docker start $(docker ps -aq)",
       Command.new "konsole", Command.new "obsidian"]
  | "Dev" => [Command.new "code", Command.new "obsidian"]
  | "Play" => [Command.new "discord", Command.new "steam"]
  | _ => []

/-- App::select, as the ordered list of Commands it spawns: it dispatches on
self.options[self.selected]. Rust indexing panics when out of range; the
embedding uses getD, whose default "" falls into the (empty) wildcard arm. -/
def App.selectCmds (a : App) : List Command :=
  appsFor (a.options.getD a.selected "")

/-- The execution trace of App::select under an oracle: every Command in
selectCmds is spawned, in order, and its result passed through .ok().
Nothing in select branches on these results. -/
def App.selectTrace (a : App) (oracle : Nat → Bool) : List (Command × Option Child) :=
  a.selectCmds.enum.map fun ic => (ic.2, rustOk (Command.spawn oracle ic.1 ic.2))

/-- The launch errors App::select returns to its caller. Every statement in
select has the shape Command::new(..).spawn().ok(); — the error is dropped
by .ok() and the resulting Option is discarded by the statement — and
select returns unit, so no error value from any executed spawn survives
the call. -/
def App.selectReported (a : App) (oracle : Nat → Bool) : List LaunchError :=
  (a.selectTrace oracle).filterMap fun _ => none

/-- A named group of executables, as in the spec's data model. -/
structure Group where
  name : String
  apps : List Command
deriving DecidableEq

/-- The group table implicit in App::select: one group per match arm, in the
order of App::new's option list, with apps in statement order. -/
def codeGroups : List Group :=
  [⟨"Nothing", appsFor "Nothing"⟩,
   ⟨"Study", appsFor "Study"⟩,
   ⟨"Docker", appsFor "Docker"⟩,
   ⟨"Dev", appsFor "Dev"⟩,
   ⟨"Play", appsFor "Play"⟩]

/-- Modelled from the spec (§4.2 group-level launch), for comparison with the
code: iterates the specs in order, launches each one, keeps each per-spec
failure, continues regardless of earlier failures, and returns the
accumulated error list. -/
def launchGroup_spec (oracle : Nat → Bool) (apps : List Command) : List LaunchError :=
  apps.enum.filterMap fun ic =>
    match Command.spawn oracle ic.1 ic.2 with
    | .ok _ => none
    | .error e => some e

/-- The crossterm key codes that run_app's match distinguishes. -/
inductive KeyCode where
  | char (c : Char)
  | down
  | up
  | enter
  | esc
  | other
deriving DecidableEq

/-- The action a key event maps to in run_app's match. -/
inductive KAction where
  | quit
  | navDown
  | navUp
  | confirm
  | ignore
deriving DecidableEq

/-- The key dispatch of run_app: q or Esc quit; Down or j navigate down;
Up or k navigate up; Enter confirms; everything else is ignored. -/
def keyAction : KeyCode → KAction
  | .char 'q' => .quit
  | .esc => .quit
  | .down => .navDown
  | .char 'j' => .navDown
  | .up => .navUp
  | .char 'k' => .navUp
  | .enter => .confirm
  | _ => .ignore

/-- How run_app ended: quit is the return Ok(()) in the q/Esc arm, confirmed
is the return Ok(()) after app.select() in the Enter arm, and running means
the modelled input stream ran out while the loop was still going. -/
inductive EndState where
  | running
  | quit
  | confirmed
deriving DecidableEq

/-- Outcome of a run_app run: how it ended, the final App value, and the
trace of spawn attempts performed (non-empty only on a confirmed end). -/
structure RunResult where
  final : EndState
  app : App
  launched : List (Command × Option Child)
deriving DecidableEq

/-- The run_app loop over a stream of input ticks. A none tick is a poll
timeout or a non-key event (the loop just redraws and continues); a some
tick is a key event dispatched exactly as run_app's match: q/Esc return
Ok(()) immediately, Down/j call app.next(), Up/k call app.prev(), Enter
calls app.select() and returns Ok(()), everything else is ignored. -/
def runApp (oracle : Nat → Bool) : App → List (Option KeyCode) → RunResult
  | a, [] => ⟨.running, a, []⟩
  | a, none :: ts => runApp oracle a ts
  | a, some k :: ts =>
      match keyAction k with
      | .quit => ⟨.quit, a, []⟩
      | .navDown => runApp oracle a.next ts
      | .navUp => runApp oracle a.prev ts
      | .confirm => ⟨.confirmed, a, a.selectTrace oracle⟩
      | .ignore => runApp oracle a ts

/-- The App-state transition one key event causes: next on Down/j, prev on
Up/k, and no change otherwise (select takes &self, and the q/Esc and Enter
arms terminate the loop without touching the App). -/
def App.stepKey (a : App) (k : KeyCode) : App :=
  match keyAction k with
  | .navDown => a.next
  | .navUp => a.prev
  | _ => a

/-- Controller states reachable from App::new by run_app key transitions. -/
inductive Reachable : App → Prop where
  | init : Reachable App.new
  | step (a : App) (k : KeyCode) : Reachable a → Reachable (App.stepKey a k)

/-- Oracle under which exactly the second spawn attempt (index 1) fails. -/
def failSecond : Nat → Bool :=
  fun i => i != 1

/-- The App state with the "Docker" option (the only 3-spec group) selected. -/
def dockerApp : App :=
  ⟨["Nothing", "Study", "Docker", "Dev", "Play"], 2⟩

/-- App::next never touches the option list. -/
theorem next_options (a : App) : (a.next).options = a.options := rfl

/-- App::prev never touches the option list. -/
theorem prev_options (a : App) : (a.prev).options = a.options := by
  unfold App.prev
  split <;> rfl

/-- No key transition touches the option list. -/
theorem stepKey_options (a : App) (k : KeyCode) : (a.stepKey k).options = a.options := by
  rcases h : keyAction k with _ | _ | _ | _ | _ <;>
    simp [App.stepKey, h, next_options, prev_options]

/-- The commands attempted in a select trace are exactly selectCmds, in order. -/
theorem selectTrace_map_fst (a : App) (oracle : Nat → Bool) :
    (a.selectTrace oracle).map Prod.fst = a.selectCmds := by
  unfold App.selectTrace
  rw [List.map_map]
  exact List.enum_map_snd a.selectCmds

/-- Discarding every element of a list yields the empty list. -/
theorem filterMap_const_none {α β : Type} (l : List α) :
    (l.filterMap fun _ => (none : Option β)) = [] := by
  induction l with
  | nil => rfl
  | cons x xs ih => simp [List.filterMap_cons, ih]

/-- Iterating App::next k times adds k to the selected index, modulo the
option count, and leaves the option list unchanged. -/
theorem next_iterate (k : Nat) : ∀ (a : App), 1 ≤ a.options.length →
    a.selected < a.options.length →
    ((App.next)^[k] a).selected = (a.selected + k) % a.options.length ∧
    ((App.next)^[k] a).options = a.options := by
  induction k with
  | zero =>
      intro a h1 h2
      exact ⟨(Nat.mod_eq_of_lt h2).symm, rfl⟩
  | succ k ih =>
      intro a h1 h2
      rw [Function.iterate_succ_apply]
      have hlt : (App.next a).selected < (App.next a).options.length := by
        show (a.selected + 1) % a.options.length < a.options.length
        exact Nat.mod_lt _ (by omega)
      obtain ⟨hs, ho⟩ := ih (App.next a) h1 hlt
      refine ⟨?_, ho⟩
      rw [hs]
      show ((a.selected + 1) % a.options.length + k) % a.options.length =
        (a.selected + (k + 1)) % a.options.length
      rw [Nat.mod_add_mod]
      congr 1
      omega

/-- Every reachable state carries the hard-coded 5-entry option list and a
selected index below 5. -/
theorem reachable_inv {a : App} (h : Reachable a) :
    a.options = App.new.options ∧ a.selected < 5 := by
  induction h with
  | init => exact ⟨rfl, by decide⟩
  | step b k hb ih =>
      obtain ⟨ho, hs⟩ := ih
      have hlen : b.options.length = 5 := by rw [ho]; rfl
      refine ⟨by rw [stepKey_options, ho], ?_⟩
      rcases hk : keyAction k with _ | _ | _ | _ | _ <;>
        simp only [App.stepKey, hk]
      · exact hs
      · show (b.selected + 1) % b.options.length < 5
        rw [hlen]
        exact Nat.mod_lt _ (by omega)
      · unfold App.prev
        split
        · simp only
          omega
        · simp only
          omega
      · exact hs
      · exact hs

/-- Any run_app run that ends in the quit state performed no spawn attempt. -/
theorem runApp_quit_no_launch (oracle : Nat → Bool) :
    ∀ (ts : List (Option KeyCode)) (a : App),
      (runApp oracle a ts).final = EndState.quit →
      (runApp oracle a ts).launched = [] := by
  intro ts
  induction ts with
  | nil => intro a _; rfl
  | cons t ts ih =>
      intro a
      match t with
      | none => exact ih a
      | some k =>
          rcases hk : keyAction k with _ | _ | _ | _ | _ <;>
            simp only [runApp, hk]
          · intro _; trivial
          · exact ih a.next
          · exact ih a.prev
          · intro h
            first
            | exact h.elim
            | exact absurd h (by decide)
          · exact ih a

/-- C5: for every group count n ≥ 1, k consecutive NavigateDown events from
the initial selected index 0 leave the selected index at k mod n, and each
single NavigateDown along the way sets it to (previous + 1) mod n. -/
theorem navigate_down_iterates_mod (a : App) (k : Nat)
    (h1 : 1 ≤ a.options.length) (h0 : a.selected = 0) :
    ((App.next)^[k] a).selected = k % a.options.length ∧
    ∀ i : Nat, ((App.next)^[i + 1] a).selected =
      (((App.next)^[i] a).selected + 1) % a.options.length := by
  have h2 : a.selected < a.options.length := by omega
  constructor
  · obtain ⟨hs, _⟩ := next_iterate k a h1 h2
    rw [hs, h0, Nat.zero_add]
  · intro i
    obtain ⟨_, ho⟩ := next_iterate i a h1 h2
    rw [Function.iterate_succ_apply']
    show (((App.next)^[i] a).selected + 1) % ((App.next)^[i] a).options.length =
      (((App.next)^[i] a).selected + 1) % a.options.length
    rw [ho]

/-- Witness for C5: at App::new (5 options, index 0), 7 NavigateDown events
leave the selected index at 7 mod 5 = 2. -/
theorem navigate_down_iterates_mod_w :
    1 ≤ App.new.options.length ∧ App.new.selected = 0 ∧
    ((App.next)^[7] App.new).selected = 7 % App.new.options.length :=
  ⟨by decide, rfl, (navigate_down_iterates_mod App.new 7 (by decide) rfl).1⟩

/-- C6: for every group count n ≥ 1, one NavigateUp from index 0 yields
n - 1, and from any positive index it yields index - 1. -/
theorem navigate_up_wraps (a : App) (_h1 : 1 ≤ a.options.length) :
    (a.selected = 0 → (a.prev).selected = a.options.length - 1) ∧
    (0 < a.selected → (a.prev).selected = a.selected - 1) := by
  constructor
  · intro h
    unfold App.prev
    rw [h]
    simp
  · intro h
    unfold App.prev
    rw [if_pos h]

/-- Witness for C6: at App::new, NavigateUp from index 0 yields 5 - 1 = 4. -/
theorem navigate_up_wraps_w :
    1 ≤ App.new.options.length ∧
    (App.new.prev).selected = App.new.options.length - 1 :=
  ⟨by decide, (navigate_up_wraps App.new (by decide)).1 rfl⟩

/-- C7: NavigateDown immediately followed by NavigateUp, and NavigateUp
immediately followed by NavigateDown, both leave the selected index
unchanged, for every group count n ≥ 1 and every valid index. -/
theorem navigate_down_up_inverse (a : App) (h1 : 1 ≤ a.options.length)
    (h2 : a.selected < a.options.length) :
    ((a.next).prev).selected = a.selected ∧
    ((a.prev).next).selected = a.selected := by
  have hnsel : (a.next).selected = (a.selected + 1) % a.options.length := rfl
  constructor
  · unfold App.prev
    rcases Nat.lt_or_ge (a.selected + 1) a.options.length with hlt | hge
    · rw [hnsel, Nat.mod_eq_of_lt hlt, if_pos (Nat.succ_pos a.selected)]
      show a.selected + 1 - 1 = a.selected
      omega
    · have heq : a.selected + 1 = a.options.length := by omega
      rw [hnsel, heq, Nat.mod_self, if_neg (lt_irrefl 0)]
      show (a.next).options.length - 1 = a.selected
      rw [next_options]
      omega
  · show ((a.prev).selected + 1) % (a.prev).options.length = a.selected
    rw [prev_options]
    rcases Nat.eq_zero_or_pos a.selected with h0 | hpos
    · have hp : (a.prev).selected = a.options.length - 1 := by
        unfold App.prev
        rw [h0]
        simp
      rw [hp, h0]
      have hn : a.options.length - 1 + 1 = a.options.length := by omega
      rw [hn, Nat.mod_self]
    · have hp : (a.prev).selected = a.selected - 1 := by
        unfold App.prev
        rw [if_pos hpos]
      rw [hp]
      have hs : a.selected - 1 + 1 = a.selected := by omega
      rw [hs, Nat.mod_eq_of_lt h2]

/-- Witness for C7 at App::new: down-then-up and up-then-down both leave the
index at 0. -/
theorem navigate_down_up_inverse_w :
    1 ≤ App.new.options.length ∧ App.new.selected < App.new.options.length ∧
    ((App.new.next).prev).selected = App.new.selected ∧
    ((App.new.prev).next).selected = App.new.selected :=
  ⟨by decide, by decide,
    (navigate_down_up_inverse App.new (by decide) (by decide)).1,
    (navigate_down_up_inverse App.new (by decide) (by decide)).2⟩

/-- C9: for a group count n ≥ 1 the invariant selected ∈ [0, n) holds in the
initial state App::new and is preserved by the state transition of every
key event (NavigateDown, NavigateUp, Confirm, Quit, Ignored). -/
theorem selected_index_invariant (a : App) (k : KeyCode)
    (h1 : 1 ≤ a.options.length) (h2 : a.selected < a.options.length) :
    App.new.selected < App.new.options.length ∧
    (a.stepKey k).selected < (a.stepKey k).options.length := by
  refine ⟨by decide, ?_⟩
  rw [stepKey_options]
  rcases hk : keyAction k with _ | _ | _ | _ | _ <;>
    simp only [App.stepKey, hk]
  · exact h2
  · show (a.selected + 1) % a.options.length < a.options.length
    exact Nat.mod_lt _ (by omega)
  · unfold App.prev
    split
    · show a.selected - 1 < a.options.length
      omega
    · show a.options.length - 1 < a.options.length
      omega
  · exact h2
  · exact h2

/-- Witness for C9 at App::new and the Down key: 0 < 5 initially and the
index stays below the option count after the transition. -/
theorem selected_index_invariant_w :
    1 ≤ App.new.options.length ∧ App.new.selected < App.new.options.length ∧
    (App.new.stepKey KeyCode.down).selected <
      (App.new.stepKey KeyCode.down).options.length :=
  ⟨by decide, (selected_index_invariant App.new KeyCode.down (by decide) (by decide)).1,
    (selected_index_invariant App.new KeyCode.down (by decide) (by decide)).2⟩

/-- C10: App::select takes the state by immutable reference: after an Enter
event the final App equals the input App in both fields (selected index and
option list), and the key transition for Enter is the identity on App. -/
theorem select_leaves_state_unchanged (oracle : Nat → Bool) (a : App)
    (ts : List (Option KeyCode)) :
    (runApp oracle a (some KeyCode.enter :: ts)).app.selected = a.selected ∧
    (runApp oracle a (some KeyCode.enter :: ts)).app.options = a.options ∧
    App.stepKey a KeyCode.enter = a :=
  ⟨rfl, rfl, rfl⟩

/-- C1: from every reachable controller state, a Confirm (Enter) event makes
run_app return in the Confirmed state having attempted exactly one spawn per
command of the selected group, in list order, whatever the launch oracle
decides about individual failures; the option list is exactly the list of
group names of the code's group table. -/
theorem confirm_launches_selected_group_in_order (oracle : Nat → Bool) (a : App)
    (hr : Reachable a) (ts : List (Option KeyCode)) :
    (runApp oracle a (some KeyCode.enter :: ts)).final = EndState.confirmed ∧
    (runApp oracle a (some KeyCode.enter :: ts)).launched.map Prod.fst =
      (codeGroups.getD a.selected ⟨"", []⟩).apps ∧
    a.options = codeGroups.map Group.name := by
  obtain ⟨ho, hs⟩ := reachable_inv hr
  have hrun : runApp oracle a (some KeyCode.enter :: ts) =
      ⟨EndState.confirmed, a, a.selectTrace oracle⟩ := rfl
  rw [hrun]
  refine ⟨rfl, ?_, by rw [ho]; rfl⟩
  show (a.selectTrace oracle).map Prod.fst = _
  rw [selectTrace_map_fst]
  unfold App.selectCmds
  rw [ho]
  have h5 : a.selected = 0 ∨ a.selected = 1 ∨ a.selected = 2 ∨
      a.selected = 3 ∨ a.selected = 4 := by omega
  rcases h5 with h | h | h | h | h <;> rw [h] <;> rfl

/-- Witness for C1: from the reachable state one NavigateDown after start
(the Study group selected), Enter confirms and attempts exactly the Study
commands in order, under an oracle that fails the second spawn. -/
theorem confirm_launches_selected_group_in_order_w :
    Reachable (App.stepKey App.new KeyCode.down) ∧
    ((runApp failSecond (App.stepKey App.new KeyCode.down)
        [some KeyCode.enter]).final = EndState.confirmed ∧
      (runApp failSecond (App.stepKey App.new KeyCode.down)
          [some KeyCode.enter]).launched.map Prod.fst =
        (codeGroups.getD (App.stepKey App.new KeyCode.down).selected ⟨"", []⟩).apps ∧
      (App.stepKey App.new KeyCode.down).options = codeGroups.map Group.name) :=
  ⟨Reachable.step App.new KeyCode.down Reachable.init,
    confirm_launches_selected_group_in_order failSecond
      (App.stepKey App.new KeyCode.down)
      (Reachable.step App.new KeyCode.down Reachable.init) [some KeyCode.enter]⟩

/-- C8: from every reachable controller state a Quit key (q or Esc) makes
run_app return immediately in the Quit state with no spawn attempted; and
any run whatsoever that ends in the Quit state attempted no spawn. -/
theorem quit_returns_with_no_launches (oracle : Nat → Bool) (a : App)
    (_hr : Reachable a) (ts : List (Option KeyCode)) :
    runApp oracle a (some (KeyCode.char 'q') :: ts) = ⟨EndState.quit, a, []⟩ ∧
    runApp oracle a (some KeyCode.esc :: ts) = ⟨EndState.quit, a, []⟩ ∧
    ((runApp oracle a ts).final = EndState.quit →
      (runApp oracle a ts).launched = []) :=
  ⟨rfl, rfl, runApp_quit_no_launch oracle ts a⟩

/-- Witness for C8 at App::new: a q key returns Quit with nothing launched,
and an Esc-terminated run has an empty launch trace. -/
theorem quit_returns_with_no_launches_w :
    runApp failSecond App.new [some (KeyCode.char 'q')] =
      ⟨EndState.quit, App.new, []⟩ ∧
    (runApp failSecond App.new [some KeyCode.esc]).launched = [] :=
  ⟨(quit_returns_with_no_launches failSecond App.new Reachable.init []).1,
    (quit_returns_with_no_launches failSecond App.new Reachable.init
      [some KeyCode.esc]).2.2 (by decide)⟩

/-- C2 amended: the group-level launch in App::select iterates all commands
of the selected group in order and continues past failures (the attempted
sequence does not depend on which spawns fail), but it accumulates no
errors: every spawn result is discarded by .ok() and select returns unit,
so the caller receives no LaunchError list (an empty one in this
embedding), not one entry per failed spec. -/
theorem select_attempts_all_and_reports_nothing (a : App) (oracle : Nat → Bool) :
    (a.selectTrace oracle).map Prod.fst = a.selectCmds ∧
    a.selectReported oracle = [] :=
  ⟨selectTrace_map_fst a oracle, filterMap_const_none _⟩

/-- C2 counterexample: for the 3-command Docker group under an oracle where
only the second spawn (konsole) fails, the spec's launchGroup would return
the single-element error list naming konsole, and all three commands are
still attempted in order, but App::select reports no error list at all —
in particular not a single-element one. -/
theorem select_reports_no_error_list_cex :
    (dockerApp.selectTrace failSecond).map Prod.fst =
      [((Command.new "sh").arg "-c").arg "docker start $(docker ps -aq)",
        Command.new "konsole", Command.new "obsidian"] ∧
    launchGroup_spec failSecond dockerApp.selectCmds = [⟨"konsole"⟩] ∧
    dockerApp.selectReported failSecond ≠ [⟨"konsole"⟩] :=
  ⟨by decide, by decide, by decide⟩

/-- C4 amended: every process App::select starts is spawned with the
std::process::Command defaults: no new-session or process-group detach is
configured (no setsid / pre_exec / process_group call appears before any
spawn), so launched children stay in the launcher's terminal session
rather than being detached from it. -/
theorem spawned_commands_never_new_session (a : App) :
    (a.selectCmds.all fun c => !c.newSession) = true := by
  unfold App.selectCmds appsFor
  split <;> rfl

/-- C4 counterexample: with Study selected, App::select spawns two processes
and neither is configured with a new session — the detachment the claim
asserts of every launched process is absent. -/
theorem spawned_commands_not_detached_cex :
    (App.mk ["Nothing", "Study", "Docker", "Dev", "Play"] 1).selectCmds.length = 2 ∧
    ((App.mk ["Nothing", "Study", "Docker", "Dev", "Play"] 1).selectCmds.all
      fun c => c.newSession) = false :=
  ⟨by decide, by decide⟩

end StartApp
